import Mathlib

/-
  Shallow embedding of src/src/native_crypto.c (noteHider).

  Byte buffers are lists of naturals, one entry per octet.  The libsodium
  primitives that the C file calls (XChaCha20-Poly1305 AEAD, HMAC-SHA256,
  crypto_pwhash, the VARIANT_ORIGINAL base64 codec, the CSPRNG) are not
  part of this repository; they are abstracted as the fields of the
  `Sodium` structure, and the functions of native_crypto.c are translated
  as Lean functions parameterised by such a bundle.  malloc and
  sodium_init are assumed to succeed (out-of-memory and library-init
  failure are not representable in this embedding).  A function that
  wipes a caller buffer in place is modelled by returning, next to its
  result, the final contents of that buffer.
-/

namespace NoteHider

/-- Byte strings: one natural number per octet. -/
abbrev Bytes := List Nat

/-- crypto_aead_xchacha20poly1305_ietf_KEYBYTES. -/
def KEYBYTES : Nat := 32

/-- crypto_aead_xchacha20poly1305_ietf_NPUBBYTES (nonce length). -/
def NPUBBYTES : Nat := 24

/-- crypto_aead_xchacha20poly1305_ietf_ABYTES (authentication tag length). -/
def ABYTES : Nat := 16

/-- crypto_auth_hmacsha256_BYTES. -/
def HMAC_BYTES : Nat := 32

/-- crypto_auth_hmacsha256_KEYBYTES. -/
def HMAC_KEYBYTES : Nat := 32

/-- sodium_memzero overwrites a buffer with zeros; the model returns the
wiped contents of the buffer. -/
def sodium_memzero (b : Bytes) : Bytes := List.replicate b.length 0

/-- Abstract interface of the external libsodium primitives used by
native_crypto.c.  aeadEnc key nonce msg is
crypto_aead_xchacha20poly1305_ietf_encrypt and returns ciphertext plus
tag; aeadDec key nonce cipher is the corresponding decrypt and returns
the plaintext exactly when the tag verifies; hmacSha256 key msg is the
crypto_auth_hmacsha256 one-shot MAC of msg under key; pwhash outLen
password salt opslimit memlimit alg is crypto_pwhash; algDefault is the
value of crypto_pwhash_alg_default() and memlimitInteractive the value
of crypto_pwhash_MEMLIMIT_INTERACTIVE; b64enc and b64dec are the
sodium_bin2base64 and sodium_base642bin codec for
sodium_base64_VARIANT_ORIGINAL; random n is the byte string written by
randombytes_buf for a request of n bytes. -/
structure Sodium where
  aeadEnc : Bytes → Bytes → Bytes → Bytes
  aeadDec : Bytes → Bytes → Bytes → Option Bytes
  hmacSha256 : Bytes → Bytes → Bytes
  pwhash : Nat → Bytes → Bytes → Nat → Nat → Nat → Option Bytes
  algDefault : Nat
  memlimitInteractive : Nat
  b64enc : Bytes → String
  b64dec : String → Option Bytes
  random : Nat → Bytes

/-- encrypt_bytes (native_crypto.c, lines 81 to 124).  The fresh random
nonce drawn by randombytes_buf inside the C function is passed
explicitly as the `nonce` argument.  The first component is the returned
string (none models returning NULL); the second component is the final
contents of the caller key buffer: on the key-length validation failure
the key is returned untouched, on the path that reaches the base64
encoding step the C code calls sodium_memzero on the key. -/
def encrypt_bytes (S : Sodium) (data key nonce : Bytes) :
    Option String × Bytes :=
  if key.length ≠ KEYBYTES then (none, key)
  else
    let cipher := S.aeadEnc key nonce data
    let combined := nonce ++ cipher
    let b64 := S.b64enc combined
    (some b64, sodium_memzero key)

/-- decrypt_bytes (native_crypto.c, lines 127 to 179).  The first
component is the returned string (none models returning NULL); the
second component is the final contents of the caller key buffer.  The C
code reaches its sodium_memzero of the key only after
crypto_aead_xchacha20poly1305_ietf_decrypt succeeded; every earlier
return leaves the key buffer untouched. -/
def decrypt_bytes (S : Sodium) (encB64 : String) (key : Bytes) :
    Option String × Bytes :=
  if key.length ≠ KEYBYTES then (none, key)
  else
    match S.b64dec encB64 with
    | none => (none, key)
    | some encBin =>
      if encBin.length < NPUBBYTES + ABYTES then (none, key)
      else
        let nonce := encBin.take NPUBBYTES
        let cipher := encBin.drop NPUBBYTES
        match S.aeadDec key nonce cipher with
        | none => (none, key)
        | some plain => (some (S.b64enc plain), sodium_memzero key)

/-- Expand loop of hkdf_sha256 (native_crypto.c, lines 223 to 239).
Arguments after okmLen: number of remaining iterations, the value of
the loop counter i for the next iteration, the current contents of the
32-byte t buffer (empty before the first iteration, in which case the C
code skips the update with t), and the bytes written to okm so far.
copyLen is the copy_len computation of line 235; the memcpy of line 236
copies copyLen bytes out of the 32-byte t buffer. -/
def hkdfIter (S : Sodium) (prk infoB : Bytes) (okmLen : Nat) :
    Nat → Nat → Bytes → Bytes → Bytes
  | 0, _, _, acc => acc
  | rem + 1, i, tPrev, acc =>
    let t := S.hmacSha256 prk (tPrev ++ infoB ++ [i % 256])
    let copyLen :=
      if acc.length + HMAC_BYTES > okmLen then okmLen - acc.length
      else HMAC_BYTES
    hkdfIter S prk infoB okmLen rem (i + 1) t (acc ++ t.take copyLen)

/-- hkdf_sha256 (native_crypto.c, lines 196 to 246).  salt = none models
a NULL salt pointer and info = none a NULL info pointer; the C code
treats a NULL or empty salt as the zero-filled 32-byte default and
skips the HMAC update for a NULL or empty info, which is the same MAC
input stream as appending the empty byte string.  The okm == NULL check
is not representable (Lean buffers are never null). -/
def hkdf_sha256 (S : Sodium) (ikm : Bytes) (salt info : Option Bytes)
    (okmLen : Nat) : Option Bytes :=
  if okmLen = 0 then none
  else
    let n := (okmLen + HMAC_BYTES - 1) / HMAC_BYTES
    if n > 255 then none
    else
      let saltB :=
        match salt with
        | none => List.replicate HMAC_KEYBYTES 0
        | some s => if s.length = 0 then List.replicate HMAC_KEYBYTES 0 else s
      let infoB :=
        match info with
        | none => ([] : Bytes)
        | some i => i
      let prk := S.hmacSha256 saltB ikm
      some (hkdfIter S prk infoB okmLen n 1 [] [])

/-- derive_session_key_b64 (native_crypto.c, lines 248 to 285).  The
first component is the returned string; the second component is the
contents of the region holding the concatenation master ++ ephemeral at
the moment that buffer is released (free for the heap path, function
return for the 64-byte stack array).  On the heap path (combined length
above 64) the C code frees dyn without wiping it on both the failure
and the success branch; on the stack path it wipes the ikm array only
after hkdf_sha256 succeeded.  The master_key == NULL check is not
representable. -/
def derive_session_key_b64 (S : Sodium) (master eph : Bytes)
    (salt : Option Bytes) : Option String × Bytes :=
  if master.length = 0 ∨ eph.length = 0 then (none, [])
  else if master.length + eph.length > 64 then
    match hkdf_sha256 S (master ++ eph) salt none 32 with
    | none => (none, master ++ eph)
    | some out => (some (S.b64enc out), master ++ eph)
  else
    match hkdf_sha256 S (master ++ eph) salt none 32 with
    | none => (none, master ++ eph)
    | some out => (some (S.b64enc out), sodium_memzero (master ++ eph))

/-- random_bytes (native_crypto.c, lines 183 to 188).  bufValid models
whether the destination pointer is non-NULL; the filled buffer is
returned instead of written through the pointer. -/
def random_bytes (S : Sodium) (bufValid : Bool) (len : Nat) :
    Option Bytes :=
  if bufValid = false ∨ len = 0 then none else some (S.random len)

/-- random_bytes_b64 (native_crypto.c, lines 287 to 296).  The C code
has no len == 0 check: it mallocs len bytes (malloc of 0 modelled as
succeeding, as on glibc), fills them, base64-encodes, wipes and frees
the temporary, and returns the encoding. -/
def random_bytes_b64 (S : Sodium) (len : Nat) : Option String :=
  some (S.b64enc (S.random len))

/-- pbkdf2_sha256_b64 (native_crypto.c, lines 299 to 322).  Despite its
name, the C code calls crypto_pwhash with crypto_pwhash_alg_default()
at crypto_pwhash_MEMLIMIT_INTERACTIVE, passing the caller iterations as
the opslimit.  The password == NULL and salt == NULL checks are not
representable (Lean buffers are never null). -/
def pbkdf2_sha256_b64 (S : Sodium) (password salt : Bytes)
    (iterations dkLen : Nat) : Option String :=
  if dkLen = 0 then none
  else
    match S.pwhash dkLen password salt iterations
        S.memlimitInteractive S.algDefault with
    | none => none
    | some dk => some (S.b64enc dk)

/-- Modelled from the spec: the T sequence of RFC 5869 expand,
T(0) = empty, T(i) = HMAC(PRK, T(i-1) || info || i). -/
def hkdfSpecT (S : Sodium) (prk infoB : Bytes) : Nat → Bytes
  | 0 => []
  | i + 1 => S.hmacSha256 prk (hkdfSpecT S prk infoB i ++ infoB ++ [(i + 1) % 256])

/-- Modelled from the spec: the concatenation T(1) || ... || T(n). -/
def hkdfBlocks (S : Sodium) (prk infoB : Bytes) : Nat → Bytes
  | 0 => []
  | n + 1 => hkdfBlocks S prk infoB n ++ hkdfSpecT S prk infoB (n + 1)

/-- Modelled from the spec (RFC 5869 extract-then-expand over
HMAC-SHA256): PRK = HMAC(salt, ikm) with an absent salt replaced by the
zero-filled 32-byte salt, the output is T(1) || ... || T(n) truncated to
okmLen, failing when okmLen = 0 or n = ceil(okmLen / 32) exceeds 255.
A present-but-empty salt is identified with the absent salt: HMAC-SHA256
zero-pads its key to the block size, so keying with the empty string and
with 32 zero bytes is the same function; the model makes that
identification syntactic. -/
def hkdf_sha256_spec (S : Sodium) (ikm : Bytes) (salt info : Option Bytes)
    (okmLen : Nat) : Option Bytes :=
  if okmLen = 0 then none
  else
    let n := (okmLen + HMAC_BYTES - 1) / HMAC_BYTES
    if n > 255 then none
    else
      let saltB :=
        match salt with
        | none => List.replicate HMAC_KEYBYTES 0
        | some s => if s.length = 0 then List.replicate HMAC_KEYBYTES 0 else s
      let infoB :=
        match info with
        | none => ([] : Bytes)
        | some i => i
      let prk := S.hmacSha256 saltB ikm
      some ((hkdfBlocks S prk infoB n).take okmLen)

/-- Toy tag for the concrete libsodium instance used by witnesses. -/
def toyTag (k n c : Bytes) : Bytes :=
  List.replicate ABYTES ((k.sum + n.sum + c.sum) % 256)

/-- Toy AEAD encryption: plaintext followed by a 16-byte tag. -/
def toyAeadEnc (k n m : Bytes) : Bytes := m ++ toyTag k n m

/-- Toy AEAD decryption: strips and checks the 16-byte tag. -/
def toyAeadDec (k n c : Bytes) : Option Bytes :=
  if c.length < ABYTES then none
  else
    let m := c.take (c.length - ABYTES)
    if c = m ++ toyTag k n m then some m else none

/-- Toy HMAC-SHA256: a 32-byte digest determined by key and message. -/
def toyHmac (k m : Bytes) : Bytes :=
  List.replicate HMAC_BYTES ((k.sum + 2 * m.sum + m.length) % 256)

/-- Toy crypto_pwhash: a digest determined by every parameter. -/
def toyPwhash (outLen : Nat) (pw salt : Bytes) (ops mem alg : Nat) :
    Option Bytes :=
  some (List.replicate outLen ((pw.sum + salt.sum + ops + mem + alg) % 256))

/-- Toy base64 encoder: one character per byte, shifted into a private
range so that decoding is exact. -/
def toyB64enc (bs : Bytes) : String :=
  String.mk (bs.map fun b => Char.ofNat (b % 256 + 256))

/-- Toy base64 decoder, inverse of toyB64enc on its range. -/
def toyB64dec (s : String) : Option Bytes :=
  if s.data.all fun c => decide (256 ≤ c.toNat) && decide (c.toNat < 512) then
    some (s.data.map fun c => c.toNat - 256)
  else none

/-- Toy CSPRNG: a fixed stream. -/
def toyRandom (n : Nat) : Bytes := List.replicate n 7

/-- Concrete bundle of toy primitives used to instantiate witnesses and
counterexamples.  algDefault is 2 (crypto_pwhash_ALG_ARGON2ID13) and
memlimitInteractive is 33554432, the numeric values libsodium uses. -/
def toySodium : Sodium :=
  ⟨toyAeadEnc, toyAeadDec, toyHmac, toyPwhash, 2, 33554432,
   toyB64enc, toyB64dec, toyRandom⟩

/-- Length of the toy HMAC digest, needed to instantiate theorems that
assume the crypto_auth_hmacsha256 output length. -/
theorem toyHmacLen : ∀ k m, (toySodium.hmacSha256 k m).length = HMAC_BYTES :=
  fun _ _ => List.length_replicate _ _

/-- Each RFC 5869 block is 32 bytes, so n blocks concatenate to 32 * n
bytes, given the HMAC output length contract. -/
theorem hkdfBlocks_length (S : Sodium)
    (hlen : ∀ k m, (S.hmacSha256 k m).length = HMAC_BYTES)
    (prk infoB : Bytes) :
    ∀ n, (hkdfBlocks S prk infoB n).length = HMAC_BYTES * n
  | 0 => by simp [hkdfBlocks]
  | n + 1 => by
    rw [hkdfBlocks, List.length_append,
      hkdfBlocks_length S hlen prk infoB n, hkdfSpecT, hlen, Nat.mul_succ]

/-- Loop invariant tying the incremental okm writes of the C expand
loop to the truncated concatenation of RFC 5869 blocks: starting the
loop at counter i + 1 with t holding T(i) and the okm buffer holding
the first okmLen bytes of T(1) || ... || T(i), running rem further
iterations yields the first okmLen bytes of T(1) || ... || T(i + rem). -/
theorem hkdfIter_eq_blocks (S : Sodium)
    (hlen : ∀ k m, (S.hmacSha256 k m).length = HMAC_BYTES)
    (prk infoB : Bytes) (L : Nat) :
    ∀ rem i, hkdfIter S prk infoB L rem (i + 1) (hkdfSpecT S prk infoB i)
        ((hkdfBlocks S prk infoB i).take L)
      = (hkdfBlocks S prk infoB (i + rem)).take L
  | 0, i => by simp [hkdfIter]
  | rem + 1, i => by
    have hT1 : hkdfSpecT S prk infoB (i + 1)
        = S.hmacSha256 prk (hkdfSpecT S prk infoB i ++ infoB ++ [(i + 1) % 256]) :=
      rfl
    have hT1len : (hkdfSpecT S prk infoB (i + 1)).length = HMAC_BYTES := by
      rw [hT1]; exact hlen _ _
    have hbl : (hkdfBlocks S prk infoB i).length = HMAC_BYTES * i :=
      hkdfBlocks_length S hlen prk infoB i
    have hacc : ((hkdfBlocks S prk infoB i).take L).length
        = min L (HMAC_BYTES * i) := by
      rw [List.length_take, hbl]
    have hstep : (hkdfBlocks S prk infoB i).take L ++
        (hkdfSpecT S prk infoB (i + 1)).take
          (if ((hkdfBlocks S prk infoB i).take L).length + HMAC_BYTES > L
            then L - ((hkdfBlocks S prk infoB i).take L).length
            else HMAC_BYTES)
        = (hkdfBlocks S prk infoB (i + 1)).take L := by
      have hsplit : (hkdfBlocks S prk infoB (i + 1)).take L
          = (hkdfBlocks S prk infoB i).take L ++
            (hkdfSpecT S prk infoB (i + 1)).take
              (L - (hkdfBlocks S prk infoB i).length) := by
        rw [hkdfBlocks]; exact List.take_append_eq_append_take
      rw [hsplit, hacc, hbl]
      congr 1
      by_cases hc : L ≤ HMAC_BYTES * i
      · rw [Nat.min_eq_left hc,
          if_pos (Nat.lt_add_of_pos_right (by decide)), Nat.sub_self,
          Nat.sub_eq_zero_of_le hc]
      · have hc2 : HMAC_BYTES * i < L := Nat.lt_of_not_le hc
        rw [Nat.min_eq_right (Nat.le_of_lt hc2)]
        by_cases hd : HMAC_BYTES * i + HMAC_BYTES > L
        · rw [if_pos hd]
        · rw [if_neg hd]
          have h2 : (hkdfSpecT S prk infoB (i + 1)).length
              ≤ L - HMAC_BYTES * i := by
            rw [hT1len]; omega
          rw [List.take_of_length_le hT1len.le, List.take_of_length_le h2]
    simp only [hkdfIter]
    rw [← hT1, hstep]
    have hidx : i + (rem + 1) = (i + 1) + rem := by omega
    rw [hidx]
    exact hkdfIter_eq_blocks S hlen prk infoB L rem (i + 1)

/-- C3: given the crypto_auth_hmacsha256 output-length contract,
hkdf_sha256 computes exactly the RFC 5869 extract-then-expand over
HMAC-SHA256 with a zero-filled 32-byte default salt, the output being
the concatenation of the T blocks truncated to the requested length;
being a function of its arguments, it is in particular deterministic. -/
theorem hkdf_sha256_matches_rfc5869 (S : Sodium)
    (hlen : ∀ k m, (S.hmacSha256 k m).length = HMAC_BYTES)
    (ikm : Bytes) (salt info : Option Bytes) (okmLen : Nat) :
    hkdf_sha256 S ikm salt info okmLen
      = hkdf_sha256_spec S ikm salt info okmLen := by
  by_cases h0 : okmLen = 0
  · simp [hkdf_sha256, hkdf_sha256_spec, h0]
  · by_cases h255 : (okmLen + HMAC_BYTES - 1) / HMAC_BYTES > 255
    · simp [hkdf_sha256, hkdf_sha256_spec, h0, h255]
    · simp only [hkdf_sha256, hkdf_sha256_spec, h0, h255, if_false,
        if_neg, ite_false]
      have h := hkdfIter_eq_blocks S hlen
        (S.hmacSha256
          (match salt with
            | none => List.replicate HMAC_KEYBYTES 0
            | some s =>
              if s.length = 0 then List.replicate HMAC_KEYBYTES 0 else s)
          ikm)
        (match info with
          | none => ([] : Bytes)
          | some i => i)
        okmLen ((okmLen + HMAC_BYTES - 1) / HMAC_BYTES) 0
      simp only [hkdfBlocks, hkdfSpecT, List.take_nil, Nat.zero_add,
        List.length_eq_zero] at h
      simp [h0, h255, h]

/-- Witness for C3 at the toy primitives and a concrete input whose
output length 33 exercises two blocks and truncation. -/
theorem hkdf_matches_rfc5869_witness :
    (∀ k m, (toySodium.hmacSha256 k m).length = HMAC_BYTES) ∧
    hkdf_sha256 toySodium [1, 2, 3] (some [9]) (some [5]) 33
      = hkdf_sha256_spec toySodium [1, 2, 3] (some [9]) (some [5]) 33 :=
  ⟨toyHmacLen, hkdf_sha256_matches_rfc5869 toySodium toyHmacLen [1, 2, 3]
    (some [9]) (some [5]) 33⟩

/-- C1: for a 32-byte key and the 24-byte random nonce, assuming the
libsodium AEAD and base64 contracts at the relevant points (ciphertext
length is plaintext length plus 16, base64 decode inverts encode on the
produced envelope, and AEAD decrypt inverts AEAD encrypt under the same
key and nonce), encrypt_bytes returns the base64 envelope and
decrypt_bytes maps every envelope it produced back to the base64
encoding of the plaintext. -/
theorem encrypt_decrypt_roundtrip (S : Sodium) (m k nonce : Bytes)
    (hk : k.length = KEYBYTES) (hn : nonce.length = NPUBBYTES)
    (hclen : (S.aeadEnc k nonce m).length = m.length + ABYTES)
    (hb64 : S.b64dec (S.b64enc (nonce ++ S.aeadEnc k nonce m))
      = some (nonce ++ S.aeadEnc k nonce m))
    (haead : S.aeadDec k nonce (S.aeadEnc k nonce m) = some m) :
    (encrypt_bytes S m k nonce).1
      = some (S.b64enc (nonce ++ S.aeadEnc k nonce m)) ∧
    ∀ s, (encrypt_bytes S m k nonce).1 = some s →
      (decrypt_bytes S s k).1 = some (S.b64enc m) := by
  have henc : (encrypt_bytes S m k nonce).1
      = some (S.b64enc (nonce ++ S.aeadEnc k nonce m)) := by
    simp [encrypt_bytes, hk]
  refine ⟨henc, ?_⟩
  intro s hs
  rw [henc] at hs
  have hs2 := Option.some.inj hs
  subst hs2
  have hlen40 : ¬ (nonce.length + (S.aeadEnc k nonce m).length
      < NPUBBYTES + ABYTES) := by
    rw [hn, hclen]
    simp only [NPUBBYTES, ABYTES]
    omega
  have htake : (nonce ++ S.aeadEnc k nonce m).take NPUBBYTES = nonce :=
    List.take_left' hn
  have hdrop : (nonce ++ S.aeadEnc k nonce m).drop NPUBBYTES
      = S.aeadEnc k nonce m :=
    List.drop_left' hn
  simp [decrypt_bytes, hk, hb64, hlen40, htake, hdrop, haead]

/-- Witness for C1: toy primitives, a two-byte plaintext, an all-ones
key and an all-twos nonce. -/
theorem encrypt_decrypt_roundtrip_witness :
    (encrypt_bytes toySodium [104, 105] (List.replicate 32 1)
        (List.replicate 24 2)).1
      = some (toySodium.b64enc (List.replicate 24 2 ++
          toySodium.aeadEnc (List.replicate 32 1) (List.replicate 24 2)
            [104, 105])) ∧
    ∀ s, (encrypt_bytes toySodium [104, 105] (List.replicate 32 1)
        (List.replicate 24 2)).1 = some s →
      (decrypt_bytes toySodium s (List.replicate 32 1)).1
        = some (toySodium.b64enc [104, 105]) :=
  encrypt_decrypt_roundtrip toySodium [104, 105] (List.replicate 32 1)
    (List.replicate 24 2) (by decide) (by decide) (by decide) (by decide)
    (by decide)

/-- C2 counterexample: decrypt_bytes called with a 32-byte key on an
input that decodes to fewer than 40 bytes returns an error and leaves
the caller key buffer untouched and nonzero, so the key buffer is not
overwritten with zeros on every return. -/
theorem key_wipe_on_error_counterexample :
    (decrypt_bytes toySodium (toyB64enc (List.replicate 39 0))
        (List.replicate 32 7)).1 = none ∧
    (decrypt_bytes toySodium (toyB64enc (List.replicate 39 0))
        (List.replicate 32 7)).2 = List.replicate 32 7 ∧
    (List.replicate 32 7 : Bytes) ≠ List.replicate 32 0 := by
  decide

/-- C2 amended: with a 32-byte key, and with allocation and library
initialization assumed to succeed, encrypt_bytes always wipes the key
buffer in place, while decrypt_bytes wipes it exactly on the success
path; every failing decrypt_bytes return leaves the key buffer
untouched. -/
theorem key_wipe_amended (S : Sodium) (m k nonce : Bytes) (s : String)
    (hk : k.length = KEYBYTES) :
    (encrypt_bytes S m k nonce).2 = List.replicate KEYBYTES 0 ∧
    ((decrypt_bytes S s k).1 = none → (decrypt_bytes S s k).2 = k) ∧
    ((decrypt_bytes S s k).1 ≠ none →
      (decrypt_bytes S s k).2 = List.replicate KEYBYTES 0) := by
  have hcases : (decrypt_bytes S s k).1 = none ∧ (decrypt_bytes S s k).2 = k ∨
      (decrypt_bytes S s k).1 ≠ none ∧
        (decrypt_bytes S s k).2 = List.replicate KEYBYTES 0 := by
    cases hbd : S.b64dec s with
    | none => left; constructor <;> simp [decrypt_bytes, hk, hbd]
    | some bin =>
      by_cases hl : bin.length < NPUBBYTES + ABYTES
      · left; constructor <;> simp [decrypt_bytes, hk, hbd, hl]
      · cases had : S.aeadDec k (bin.take NPUBBYTES) (bin.drop NPUBBYTES) with
        | none => left; constructor <;> simp [decrypt_bytes, hk, hbd, hl, had]
        | some p =>
          right
          constructor <;>
            simp [decrypt_bytes, hk, hbd, hl, had, sodium_memzero]
  refine ⟨by simp [encrypt_bytes, hk, sodium_memzero], ?_, ?_⟩
  · intro hnone
    rcases hcases with ⟨_, h2⟩ | ⟨h1, _⟩
    · exact h2
    · exact (h1 hnone).elim
  · intro hsome
    rcases hcases with ⟨h1, _⟩ | ⟨_, h2⟩
    · exact (hsome h1).elim
    · exact h2

/-- Witness for the amended C2 at the toy primitives. -/
theorem key_wipe_amended_witness :
    ((List.replicate 32 5 : Bytes).length = KEYBYTES) ∧
    ((encrypt_bytes toySodium [1] (List.replicate 32 5)
        (List.replicate 24 1)).2 = List.replicate KEYBYTES 0 ∧
     ((decrypt_bytes toySodium "" (List.replicate 32 5)).1 = none →
       (decrypt_bytes toySodium "" (List.replicate 32 5)).2
         = List.replicate 32 5) ∧
     ((decrypt_bytes toySodium "" (List.replicate 32 5)).1 ≠ none →
       (decrypt_bytes toySodium "" (List.replicate 32 5)).2
         = List.replicate KEYBYTES 0)) :=
  ⟨by decide, key_wipe_amended toySodium [1] (List.replicate 32 5)
    (List.replicate 24 1) "" (by decide)⟩

/-- C4: a key whose length differs from 32 bytes makes both
encrypt_bytes and decrypt_bytes fail with no output and the key buffer
untouched; the bundle S is arbitrary, so the result involves no
cryptographic primitive at all. -/
theorem bad_key_length_rejected (S : Sodium) (m k nonce : Bytes) (s : String)
    (hk : k.length ≠ KEYBYTES) :
    encrypt_bytes S m k nonce = (none, k) ∧
    decrypt_bytes S s k = (none, k) := by
  constructor <;> simp [encrypt_bytes, decrypt_bytes, hk]

/-- Witness for C4 with a 31-byte key. -/
theorem bad_key_length_rejected_witness :
    ((List.replicate 31 0 : Bytes).length ≠ KEYBYTES) ∧
    (encrypt_bytes toySodium [3] (List.replicate 31 0) (List.replicate 24 0)
        = (none, List.replicate 31 0) ∧
     decrypt_bytes toySodium "abc" (List.replicate 31 0)
        = (none, List.replicate 31 0)) :=
  ⟨by decide, bad_key_length_rejected toySodium [3] (List.replicate 31 0)
    (List.replicate 24 0) "abc" (by decide)⟩

/-- C5: with a 32-byte key, an input whose base64 decoding is shorter
than 40 bytes makes decrypt_bytes fail with the key untouched; the
bundle S is arbitrary beyond the decode hypothesis, so in particular
the result does not depend on S.aeadDec — no tag verification or
decryption is attempted before the failure. -/
theorem short_envelope_rejected (S : Sodium) (s : String) (k bin : Bytes)
    (hk : k.length = KEYBYTES) (hdec : S.b64dec s = some bin)
    (hshort : bin.length < NPUBBYTES + ABYTES) :
    decrypt_bytes S s k = (none, k) := by
  simp [decrypt_bytes, hk, hdec, hshort]

/-- Witness for C5 with a 39-byte decoded envelope. -/
theorem short_envelope_rejected_witness :
    ((List.replicate 32 3 : Bytes).length = KEYBYTES ∧
     toySodium.b64dec (toyB64enc (List.replicate 39 4))
       = some (List.replicate 39 4) ∧
     (List.replicate 39 4 : Bytes).length < NPUBBYTES + ABYTES) ∧
    decrypt_bytes toySodium (toyB64enc (List.replicate 39 4))
        (List.replicate 32 3)
      = (none, List.replicate 32 3) :=
  ⟨⟨by decide, by decide, by decide⟩,
   short_envelope_rejected toySodium (toyB64enc (List.replicate 39 4))
     (List.replicate 32 3) (List.replicate 39 4)
     (by decide) (by decide) (by decide)⟩

/-- C6: hkdf_sha256 fails exactly when the requested length is zero or
the block count ceil(okmLen / 32) exceeds 255; every okmLen whose block
count lies between 1 and 255 passes the validation and yields output. -/
theorem hkdf_failure_iff (S : Sodium) (ikm : Bytes) (salt info : Option Bytes)
    (okmLen : Nat) :
    hkdf_sha256 S ikm salt info okmLen = none ↔
      okmLen = 0 ∨ (okmLen + HMAC_BYTES - 1) / HMAC_BYTES > 255 := by
  by_cases h0 : okmLen = 0
  · simp [hkdf_sha256, h0]
  · by_cases h255 : (okmLen + HMAC_BYTES - 1) / HMAC_BYTES > 255
    · simp [hkdf_sha256, h0, h255]
    · simp [hkdf_sha256, h0, h255]

/-- C7: evaluation of derive_session_key_b64 on the heap path, with a
33-byte master key and a 32-byte ephemeral key whose combined length 65
exceeds the 64-byte stack threshold: the call succeeds, yet the
concatenation buffer is released still holding master ++ ephemeral
rather than zeros — the heap path frees the buffer without wiping it. -/
theorem derive_session_key_heap_buffer_not_wiped :
    (derive_session_key_b64 toySodium (List.replicate 33 1)
        (List.replicate 32 2) none).1.isSome = true ∧
    (derive_session_key_b64 toySodium (List.replicate 33 1)
        (List.replicate 32 2) none).2
      = List.replicate 33 1 ++ List.replicate 32 2 ∧
    (derive_session_key_b64 toySodium (List.replicate 33 1)
        (List.replicate 32 2) none).2 ≠ List.replicate 65 0 := by
  decide

/-- C8: for nonzero output length, pbkdf2_sha256_b64 is exactly the
base64 encoding of crypto_pwhash with the library default algorithm
identifier at the interactive memory limit, taking the caller iteration
count as opslimit; the hmacSha256 primitive does not occur, so the
output is the default-algorithm digest (Argon2id in libsodium), not a
PBKDF2-HMAC-SHA256 value. -/
theorem pbkdf2_delegates_to_default_alg (S : Sodium) (pw salt : Bytes)
    (iterations dkLen : Nat) (h : dkLen ≠ 0) :
    pbkdf2_sha256_b64 S pw salt iterations dkLen
      = (S.pwhash dkLen pw salt iterations S.memlimitInteractive
          S.algDefault).map S.b64enc := by
  cases hp : S.pwhash dkLen pw salt iterations S.memlimitInteractive
      S.algDefault with
  | none => simp [pbkdf2_sha256_b64, h, hp]
  | some dk => simp [pbkdf2_sha256_b64, h, hp]

/-- Witness for the C8 theorem at the concrete inputs of the claim:
password "pw" (bytes 112, 119), a 16-byte salt of ones, 100000
iterations, output length 32. -/
theorem pbkdf2_delegates_witness :
    ((32 : Nat) ≠ 0) ∧
    pbkdf2_sha256_b64 toySodium [112, 119] (List.replicate 16 1) 100000 32
      = (toySodium.pwhash 32 [112, 119] (List.replicate 16 1) 100000
          toySodium.memlimitInteractive toySodium.algDefault).map
            toySodium.b64enc :=
  ⟨by decide, pbkdf2_delegates_to_default_alg toySodium [112, 119]
    (List.replicate 16 1) 100000 32 (by decide)⟩

/-- C9 counterexample: random_bytes_b64 with len = 0 succeeds — the C
code has no zero-length check and returns the base64 encoding of the
empty byte string — so it does not fail at len = 0 as claimed. -/
theorem random_bytes_b64_zero_counterexample :
    random_bytes_b64 toySodium 0 ≠ none := by
  decide

/-- C9 amended: random_bytes fails exactly when the destination is
null or len = 0 and otherwise succeeds, while random_bytes_b64 never
fails in this model (allocation and initialization succeeding): it
returns the base64 encoding of len CSPRNG bytes for every len,
including len = 0. -/
theorem random_bytes_amended (S : Sodium) (bufValid : Bool) (len : Nat) :
    (random_bytes S bufValid len = none ↔ (bufValid = false ∨ len = 0)) ∧
    random_bytes_b64 S len ≠ none := by
  constructor
  · by_cases h : bufValid = false ∨ len = 0
    · simp [random_bytes, h]
    · simp [random_bytes, h]
  · simp [random_bytes_b64]

/-- C10: decrypt_bytes accepts an envelope whose decoded length is
exactly 40 bytes (24-byte nonce plus 16-byte tag, empty ciphertext):
when the AEAD tag verifies for the empty plaintext the call succeeds,
returns the base64 encoding of the empty byte string and wipes the key
— the minimum-length check is at-least-40, not more-than-40. -/
theorem decrypt_minimal_envelope (S : Sodium) (s : String) (k bin : Bytes)
    (hk : k.length = KEYBYTES) (hdec : S.b64dec s = some bin)
    (hlen : bin.length = NPUBBYTES + ABYTES)
    (htag : S.aeadDec k (bin.take NPUBBYTES) (bin.drop NPUBBYTES)
      = some []) :
    decrypt_bytes S s k
      = (some (S.b64enc []), List.replicate KEYBYTES 0) := by
  have hnl : ¬ (bin.length < NPUBBYTES + ABYTES) := by rw [hlen]; omega
  simp [decrypt_bytes, hk, hdec, hnl, htag, sodium_memzero]

/-- Witness for C10: a 40-byte envelope made of an all-twos nonce and
the toy tag of the empty plaintext. -/
theorem decrypt_minimal_envelope_witness :
    ((List.replicate 32 1 : Bytes).length = KEYBYTES ∧
     toySodium.b64dec (toyB64enc (List.replicate 24 2 ++
        toyAeadEnc (List.replicate 32 1) (List.replicate 24 2) []))
       = some (List.replicate 24 2 ++
           toyAeadEnc (List.replicate 32 1) (List.replicate 24 2) []) ∧
     (List.replicate 24 2 ++
        toyAeadEnc (List.replicate 32 1) (List.replicate 24 2) []).length
       = NPUBBYTES + ABYTES ∧
     toySodium.aeadDec (List.replicate 32 1)
        ((List.replicate 24 2 ++
          toyAeadEnc (List.replicate 32 1) (List.replicate 24 2) []).take
            NPUBBYTES)
        ((List.replicate 24 2 ++
          toyAeadEnc (List.replicate 32 1) (List.replicate 24 2) []).drop
            NPUBBYTES)
       = some []) ∧
    decrypt_bytes toySodium (toyB64enc (List.replicate 24 2 ++
        toyAeadEnc (List.replicate 32 1) (List.replicate 24 2) []))
        (List.replicate 32 1)
      = (some (toySodium.b64enc []), List.replicate KEYBYTES 0) :=
  ⟨⟨by decide, by decide, by decide, by decide⟩,
   decrypt_minimal_envelope toySodium
     (toyB64enc (List.replicate 24 2 ++
       toyAeadEnc (List.replicate 32 1) (List.replicate 24 2) []))
     (List.replicate 32 1)
     (List.replicate 24 2 ++
       toyAeadEnc (List.replicate 32 1) (List.replicate 24 2) [])
     (by decide) (by decide) (by decide) (by decide)⟩

end NoteHider
